import Mathlib

/-!
Shallow embedding of the OzonSellerApi repository core
(`src/tools/functions.py`, `src/tools/exceptions.py`, `src/fetchers/FBO.py`,
`src/fetchers/Finance.py`) and proofs about it.

Conventions:
* JSON-like Python values are modelled by the inductive type `Value`;
  a Python `dict` is an association list with unique keys kept in
  insertion order, which is exactly the observable behaviour of CPython
  dicts (`pyGet`, `pySet`, `pyPop` below).
* Timestamps and durations are integer numbers of nanoseconds (the
  resolution of `pandas.Timestamp` / `pandas.Timedelta`).
* `while` loops are either structural recursion over the scripted list of
  HTTP responses (the paginators) or fuel-based recursion with the fuel
  proven sufficient (the flatten loop).
* Exceptions are modelled by `Option` / explicit outcome types.
-/

set_option autoImplicit false
set_option maxRecDepth 2000

namespace Ozon

/-- A JSON-like Python value: `None`, a scalar (numbers, strings and bools
are abstracted into one scalar constructor), a list, or a dict. -/
inductive Value where
  | null : Value
  | prim (n : Nat) : Value
  | arr (elems : List Value) : Value
  | obj (fields : List (String × Value)) : Value

mutual
/-- Boolean equality on `Value`, used to build the `DecidableEq` instance
(the automatic derivation does not handle this nested inductive). -/
def Value.beq : Value → Value → Bool
  | .null, .null => true
  | .prim a, .prim b => a == b
  | .arr xs, .arr ys => Value.beqList xs ys
  | .obj xs, .obj ys => Value.beqFields xs ys
  | _, _ => false
def Value.beqList : List Value → List Value → Bool
  | [], [] => true
  | x :: xs, y :: ys => Value.beq x y && Value.beqList xs ys
  | _, _ => false
def Value.beqFields : List (String × Value) → List (String × Value) → Bool
  | [], [] => true
  | (k, v) :: xs, (l, w) :: ys => k == l && Value.beq v w && Value.beqFields xs ys
  | _, _ => false
end

mutual
theorem Value.beq_refl : ∀ a : Value, Value.beq a a = true
  | .null => rfl
  | .prim a => by simp [Value.beq]
  | .arr xs => by simp [Value.beq, Value.beqList_refl xs]
  | .obj xs => by simp [Value.beq, Value.beqFields_refl xs]
theorem Value.beqList_refl : ∀ xs : List Value, Value.beqList xs xs = true
  | [] => rfl
  | x :: xs => by simp [Value.beqList, Value.beq_refl x, Value.beqList_refl xs]
theorem Value.beqFields_refl : ∀ xs : List (String × Value), Value.beqFields xs xs = true
  | [] => rfl
  | (k, v) :: xs => by simp [Value.beqFields, Value.beq_refl v, Value.beqFields_refl xs]
end

mutual
theorem Value.beq_sound : ∀ a b : Value, Value.beq a b = true → a = b
  | .null, .null, _ => rfl
  | .null, .prim _, h => by simp [Value.beq] at h
  | .null, .arr _, h => by simp [Value.beq] at h
  | .null, .obj _, h => by simp [Value.beq] at h
  | .prim _, .null, h => by simp [Value.beq] at h
  | .prim a, .prim b, h => by simp [Value.beq] at h; simp [h]
  | .prim _, .arr _, h => by simp [Value.beq] at h
  | .prim _, .obj _, h => by simp [Value.beq] at h
  | .arr _, .null, h => by simp [Value.beq] at h
  | .arr _, .prim _, h => by simp [Value.beq] at h
  | .arr xs, .arr ys, h => by
      simp only [Value.beq] at h
      simp [Value.beqList_sound xs ys h]
  | .arr _, .obj _, h => by simp [Value.beq] at h
  | .obj _, .null, h => by simp [Value.beq] at h
  | .obj _, .prim _, h => by simp [Value.beq] at h
  | .obj _, .arr _, h => by simp [Value.beq] at h
  | .obj xs, .obj ys, h => by
      simp only [Value.beq] at h
      simp [Value.beqFields_sound xs ys h]
theorem Value.beqList_sound : ∀ xs ys : List Value, Value.beqList xs ys = true → xs = ys
  | [], [], _ => rfl
  | [], _ :: _, h => by simp [Value.beqList] at h
  | _ :: _, [], h => by simp [Value.beqList] at h
  | x :: xs, y :: ys, h => by
      simp only [Value.beqList, Bool.and_eq_true] at h
      simp [Value.beq_sound x y h.1, Value.beqList_sound xs ys h.2]
theorem Value.beqFields_sound :
    ∀ xs ys : List (String × Value), Value.beqFields xs ys = true → xs = ys
  | [], [], _ => rfl
  | [], _ :: _, h => by simp [Value.beqFields] at h
  | _ :: _, [], h => by simp [Value.beqFields] at h
  | (k, v) :: xs, (l, w) :: ys, h => by
      simp only [Value.beqFields, Bool.and_eq_true] at h
      obtain ⟨⟨h1, h2⟩, h3⟩ := h
      simp only [beq_iff_eq] at h1
      simp [h1, Value.beq_sound v w h2, Value.beqFields_sound xs ys h3]
end

instance : DecidableEq Value := fun a b =>
  if h : Value.beq a b = true then .isTrue (Value.beq_sound a b h)
  else .isFalse (fun e => h (e ▸ Value.beq_refl a))

/-- A Python dict with string keys: an association list in insertion order.
CPython guarantees unique keys; `keysNodup` below states that invariant. -/
abbrev Record := List (String × Value)

/-- Python `d[k]` / `d.get(k)`: the value of the first (only) binding of `k`. -/
def pyGet : Record → String → Option Value
  | [], _ => none
  | (k, v) :: rest, key => if k = key then some v else pyGet rest key

/-- Python `d[k] = v`: update the binding in place if the key is present
(keeping its position), otherwise append the new binding at the end. -/
def pySet : Record → String → Value → Record
  | [], key, v => [(key, v)]
  | (k, w) :: rest, key, v =>
      if k = key then (k, v) :: rest else (k, w) :: pySet rest key v

/-- Python `d.pop(k)`: remove the binding of `k` (first occurrence). -/
def pyPop : Record → String → Record
  | [], _ => []
  | (k, w) :: rest, key => if k = key then rest else (k, w) :: pyPop rest key

/-- Python `x[i]` for an integer index: only sequences support it here
(indexing any other value raises `TypeError`, modelled as `none`). -/
def pyIndex : Value → Nat → Option Value
  | .arr vs, i => vs.get? i
  | _, _ => none

/-- The CPython dict invariant: keys are pairwise distinct. -/
def keysNodup (d : Record) : Prop := (d.map Prod.fst).Nodup

instance keysNodupDec (d : Record) : Decidable (keysNodup d) :=
  inferInstanceAs (Decidable ((d.map Prod.fst).Nodup))

/-- Python `any(isinstance(i, dict) for i in d.values())`. -/
def anyDict (d : Record) : Bool :=
  d.any (fun kv => match kv.2 with | .obj _ => true | _ => false)

mutual
/-- Weight of a value: the number of `dict` constructors reachable through
chains of dicts only. Used as the termination measure (and the fuel) for
the flatten loop: each flatten pass strictly decreases the record weight. -/
def valWeight : Value → Nat
  | .null => 0
  | .prim _ => 0
  | .arr _ => 0
  | .obj fs => 1 + fieldsWeight fs
def fieldsWeight : List (String × Value) → Nat
  | [] => 0
  | p :: rest => valWeight p.2 + fieldsWeight rest
end

/-! ### `tools/functions.py`: `manage_asyncio_wait` -/

/-- Outcome of one fetch task handed to the orchestrator: the wrapped
coroutine either returned or raised an exception with a message. -/
inductive TaskOutcome where
  | success : TaskOutcome
  | failure (msg : String) : TaskOutcome
  deriving DecidableEq, Repr

/-- A Python exception as seen by the caller of `manage_asyncio_wait`:
either a task's own failure or `asyncio.CancelledError` (which
`Task.exception()` raises when called on a cancelled task). -/
inductive PyException where
  | taskFailure (msg : String) : PyException
  | cancelledError : PyException
  deriving DecidableEq, Repr

/-- Result of one orchestrator run: `result = none` means the call
returned normally, `some e` means exception `e` propagated to the caller;
`cancelled` counts the pending tasks that were cancelled. -/
structure OrchRun where
  result : Option PyException
  cancelled : Nat
  deriving DecidableEq, Repr

/-- Model of `manage_asyncio_wait` (src/tools/functions.py lines 8-36).
The argument is the list of task outcomes in completion order; each
`asyncio.wait(..., return_when=FIRST_COMPLETED)` round is modelled as
delivering the next completed task. The loop inspects
`done_task.exception()`; on a failure it logs the exception and cancels
every still-pending task (`[not_done_task.cancel() ...]`) — it never
re-raises the captured failure. On the next round the cancelled tasks
complete as cancelled, and calling `.exception()` on a cancelled task
raises `CancelledError`, which propagates out of the function; if no task
was pending the `while pending` loop just exits and the function returns
`None`. -/
def manage_asyncio_wait : List TaskOutcome → OrchRun
  | [] => ⟨none, 0⟩
  | .success :: rest => manage_asyncio_wait rest
  | .failure _ :: rest =>
      if rest.isEmpty then ⟨none, 0⟩
      else ⟨some .cancelledError, rest.length⟩

/-! ### `tools/functions.py`: `dates_delta` -/

/-- Nanoseconds in one day, the unit conversion used by
`pandas.Timedelta.days`. -/
def nsPerDay : Nat := 86400000000000

/-- Ceiling division on naturals, modelling Python's
`(days / 365).__ceil__()` (exact for every integer `days` whose float
quotient is not astronomically large). -/
def ceilDivNat (a b : Nat) : Nat := (a + b - 1) / b

/-- Model of `dates_delta` (src/tools/functions.py lines 38-52).
Timestamps are nanosecond counts with `time_since ≤ time_to` (the domain
the fetchers use). `(time_to - time_since).days` truncates the difference
to whole days; `years` is the ceiling of `days / 365`; the step is the
total duration divided by `years` (`pandas.Timedelta` division, modelled
at nanosecond resolution). When `years = 0` the division raises
`ZeroDivisionError`, modelled as `none`. -/
def dates_delta (time_since time_to : Nat) : Option (Nat × Nat) :=
  let D := time_to - time_since
  let days := D / nsPerDay
  let years := ceilDivNat days 365
  if years = 0 then none
  else some (years, D / years)

/-! ### `tools/functions.py`: `flatten_dict` -/

/-- One step of the inner `for parent_key in list(parent_dict)` loop of
`flatten_dict` (src/tools/functions.py lines 73-77): if the value under
`key` is a dict, copy each of its entries to `key ++ "__" ++ nested_key`
and then pop `key`; otherwise leave the record unchanged. -/
def flattenStep (d : Record) (key : String) : Record :=
  match pyGet d key with
  | some (.obj fs) =>
      pyPop (fs.foldl (fun acc p => pySet acc (key ++ "__" ++ p.1) p.2) d) key
  | _ => d

/-- One iteration of the `while any(...)` loop of `flatten_dict`: the
`for` loop runs over a snapshot of the keys (`list(parent_dict)`) taken
before the pass. -/
def flattenPass (d : Record) : Record :=
  (d.map Prod.fst).foldl flattenStep d

/-- The `while any(isinstance(i, dict) for i in parent_dict.values())`
loop of `flatten_dict`, with explicit fuel. `flattenLoop_anyDict` proves
that `fieldsWeight d` units of fuel always reach the loop's fixpoint for
records with unique keys (every Python dict), so `flattenRecord` below
computes exactly what the `while` loop computes. -/
def flattenLoop : Nat → Record → Record
  | 0, d => d
  | fuel + 1, d => if anyDict d then flattenLoop fuel (flattenPass d) else d

/-- The effect of `flatten_dict` on one record of the input list. -/
def flattenRecord (d : Record) : Record := flattenLoop (fieldsWeight d) d

/-- Model of `flatten_dict` (src/tools/functions.py lines 55-78): the
returned list. The source takes a shallow copy of the input list
(`array = data_to_unpack.copy()`) and mutates each contained dict in
place, so the returned list holds the flattened records. -/
def flatten_dict (data_to_unpack : List Record) : List Record :=
  data_to_unpack.map flattenRecord

/-- The state of the records of the input list after `flatten_dict`
returns. `array = data_to_unpack.copy()` is a shallow copy, so the loop
mutates the caller's record objects in place: after the call the input
list contains exactly the flattened records (the very objects the
returned list holds). -/
def flatten_dict_inputAfter (data_to_unpack : List Record) : List Record :=
  data_to_unpack.map flattenRecord

/-! ### `tools/functions.py`: `mult_data` and `mult_data2` -/

/-- Model of `mult_data` (src/tools/functions.py lines 81-101): for each
record, one deep copy per element of the sequence under `column`, with
`column` replaced by that element. A record whose `column` value is
missing or not a sequence raises (`KeyError`/`TypeError`), modelled as
`none`. -/
def mult_data (data : List Record) (column : String) : Option (List Record) :=
  (data.mapM (fun note =>
    match pyGet note column with
    | some (.arr vs) => some (vs.map (fun v => pySet note column v))
    | _ => none)).map List.flatten

/-- The state of the input list after `mult_data` returns: every clone is
a `deepcopy` of the source record and only clones are mutated, so the
input is untouched. -/
def mult_data_inputAfter (data : List Record) (_column : String) : List Record :=
  data

/-- The branch of `mult_data2` taken for one record whose two columns have
sequences of different lengths (src/tools/functions.py lines 122-126):
iterate over `range(len(note[first_column]))`; each clone first gets
`second_column = None` and then `first_column = clone[first_column][i1]`
(the subscript read happens on the already-modified clone). -/
def multData2Diff (note : Record) (c1 c2 : String) : Nat → Option Record :=
  fun i => do
    let r1 := pySet note c2 .null
    let x ← pyGet r1 c1
    let e ← pyIndex x i
    pure (pySet r1 c1 e)

/-- The branch of `mult_data2` taken for one record whose two columns have
sequences of equal length (src/tools/functions.py lines 128-132): each
clone gets `second_column = clone[second_column][i1]` and then
`first_column = clone[first_column][i1]`, both reads on the
already-modified clone. -/
def multData2Same (note : Record) (c1 c2 : String) : Nat → Option Record :=
  fun i => do
    let y ← pyGet note c2
    let e2 ← pyIndex y i
    let r1 := pySet note c2 e2
    let x ← pyGet r1 c1
    let e1 ← pyIndex x i
    pure (pySet r1 c1 e1)

/-- Model of `mult_data2` (src/tools/functions.py lines 104-134). For each
record, `len(note[first_column])` clones are produced (the first column's
length in both branches); when the lengths differ the second column is set
to `None` in every clone, otherwise both columns are aligned by index.
Missing columns or non-sequence values raise, modelled as `none`. -/
def mult_data2 (data_to_mult : List Record) (c1 c2 : String) :
    Option (List Record) :=
  (data_to_mult.mapM (fun note =>
    match pyGet note c1, pyGet note c2 with
    | some (.arr v1), some (.arr v2) =>
        if v1.length ≠ v2.length then
          (List.range v1.length).mapM (multData2Diff note c1 c2)
        else
          (List.range v1.length).mapM (multData2Same note c1 c2)
    | _, _ => none)).map List.flatten

/-! ### `fetchers/FBO.py`: `FBOPostingList._fetch` and the fan-out run -/

/-- Body of one JSON response to `v2/posting/fbo/list`. `_fetch` first
checks `result.get("message")`: a truthy `"message"` key is the error
payload; otherwise `result["result"]` is the page of postings (items are
abstracted to `Nat`). CPython treats an empty-string message as falsy;
`message` here stands for a non-empty message. -/
inductive FboBody where
  | message (msg : String) : FboBody
  | result (items : List Nat) : FboBody
  deriving DecidableEq, Repr

/-- One scripted HTTP response: the status code and the decoded JSON. -/
structure FboResponse where
  status : Nat
  body : FboBody
  deriving DecidableEq, Repr

/-- The exception raised by the fetch loops: the f-string carries exactly
the HTTP status code and the provider's message (and no api method). -/
structure FetchErr where
  statusCode : Nat
  message : String
  deriving DecidableEq, Repr

/-- Outcome of one `_fetch` task. `data` is everything the task appended
to the shared `self.data` before finishing (appends happen before the
termination check, and the raise happens before any append); `offsetsUsed`
lists the `offset` of each issued request, so its length is the number of
requests. `running` marks a loop that exhausted the scripted responses
while `switcher` was still true. -/
inductive FetchOutcome where
  | ok (data : List Nat) (offsetsUsed : List Nat) : FetchOutcome
  | err (e : FetchErr) (data : List Nat) (offsetsUsed : List Nat) : FetchOutcome
  | running (data : List Nat) (offsetsUsed : List Nat) : FetchOutcome
  deriving DecidableEq, Repr

/-- Model of the `while switcher` loop of `FBOPostingList._fetch`
(src/fetchers/FBO.py lines 81-102), driven by a script of responses.
Each iteration posts one request at the current `offset`; an error
payload raises; otherwise the page is appended, `switcher` stays true
exactly when the page has ≥ 1000 items (`False if len < 1000 else True`),
and `offset += 1000` regardless of the actual page size. -/
def fboFetch (acc : List Nat) (offset : Nat) (offs : List Nat) :
    List FboResponse → FetchOutcome
  | [] => .running acc offs
  | r :: rest =>
      match r.body with
      | .message m => .err ⟨r.status, m⟩ acc (offs ++ [offset])
      | .result items =>
          if items.length < 1000 then .ok (acc ++ items) (offs ++ [offset])
          else fboFetch (acc ++ items) (offset + 1000) (offs ++ [offset]) rest

/-- Caller-visible summary of one `FBOPostingList.run()`: the final
contents of the shared `self.data`, the first task failure (only logged
by the orchestrator), and the exception `run()` raises to the caller, if
any. -/
structure FboRun where
  data : List Nat
  taskFailure : Option FetchErr
  callerException : Option PyException
  deriving DecidableEq, Repr

/-- Fan-out of `_main` + `manage_asyncio_wait` over one script per window
task, under the sequential completion schedule (task `i` completes before
task `i+1` starts finishing — one admissible cooperative schedule). Every
task appends its pages to the shared `self.data`; when a task raises, the
orchestrator logs the failure and cancels the still-pending tasks (which
therefore contribute nothing), and the `CancelledError` from inspecting a
cancelled task — if any task was still pending — is what reaches the
caller; the captured failure itself is never re-raised. `none` means some
script was exhausted early (no claim exercises that case). -/
def fboRunAux : List (List FboResponse) → List Nat → Option FboRun
  | [], acc => some ⟨acc, none, none⟩
  | script :: rest, acc =>
      match fboFetch [] 0 [] script with
      | .ok d _ => fboRunAux rest (acc ++ d)
      | .err e d _ =>
          some ⟨acc ++ d, some e,
                if rest.isEmpty then none else some .cancelledError⟩
      | .running _ _ => none

/-- One whole `run()` of the FBO fetcher over scripted windows. -/
def fboRun (scripts : List (List FboResponse)) : Option FboRun :=
  fboRunAux scripts []

/-! ### `fetchers/Finance.py`: `AsyncFinanceRealizationList._fetch` -/

/-- Body of one JSON response to `v3/finance/transaction/list`: either an
error payload (`"message"` key) or `result` with the page's operations
and the reported `page_count`. -/
inductive FinBody where
  | message (msg : String) : FinBody
  | result (operations : List Nat) (page_count : Nat) : FinBody
  deriving DecidableEq, Repr

/-- One scripted HTTP response for the finance endpoint. -/
structure FinResponse where
  status : Nat
  body : FinBody
  deriving DecidableEq, Repr

/-- Outcome of the finance `_fetch` loop: normal termination with the
accumulated operations and the number of issued requests, or a raised
exception. -/
inductive FinOutcome where
  | ok (data : List Nat) (requests : Nat) : FinOutcome
  | err (e : FetchErr) (requests : Nat) : FinOutcome
  deriving DecidableEq, Repr

/-- Model of the `while switcher` loop of
`AsyncFinanceRealizationList._fetch` (src/fetchers/Finance.py lines
85-105). `resp k` is the response to the `k`-th request (0-based; the
`page` field of that request is `k + 1`). Each iteration appends the
operations, then sets `switcher = False if page == page_count else True`
and increments `page`. The loop has no other exit, so it is modelled with
fuel: `none` means the loop is still running after `fuel` requests. -/
def finFetchLoop (resp : Nat → FinResponse) : Nat → Nat → Nat → List Nat →
    Option FinOutcome
  | 0, _, _, _ => none
  | fuel + 1, k, page, acc =>
      match (resp k).body with
      | .message m => some (.err ⟨(resp k).status, m⟩ (k + 1))
      | .result ops pc =>
          if page = pc then some (.ok (acc ++ ops) (k + 1))
          else finFetchLoop resp fuel (k + 1) (page + 1) (acc ++ ops)

/-- The finance `_fetch` entry: `page` starts at 1 with nothing
accumulated. -/
def finFetch (resp : Nat → FinResponse) (fuel : Nat) : Option FinOutcome :=
  finFetchLoop resp fuel 0 1 []

/-! ### Lemmas about the Python dict model -/

theorem pyGet_pySet_self (d : Record) (k : String) (v : Value) :
    pyGet (pySet d k v) k = some v := by
  induction d with
  | nil => simp [pySet, pyGet]
  | cons p rest ih =>
      obtain ⟨k0, w⟩ := p
      by_cases h : k0 = k <;> simp [pySet, pyGet, h, ih]

theorem pyGet_pySet_ne (d : Record) (k k' : String) (v : Value) (h : k' ≠ k) :
    pyGet (pySet d k v) k' = pyGet d k' := by
  have hks : k ≠ k' := fun e => h e.symm
  induction d with
  | nil => simp [pySet, pyGet, hks]
  | cons p rest ih =>
      obtain ⟨k0, w⟩ := p
      by_cases h0 : k0 = k
      · subst h0
        simp [pySet, pyGet, hks]
      · simp only [pySet, if_neg h0]
        by_cases h1 : k0 = k' <;> simp [pyGet, h1, ih]

theorem fieldsWeight_pySet_le (d : Record) (k : String) (v : Value) :
    fieldsWeight (pySet d k v) ≤ fieldsWeight d + valWeight v := by
  induction d with
  | nil => simp [pySet, fieldsWeight]
  | cons p rest ih =>
      obtain ⟨k0, w⟩ := p
      by_cases h : k0 = k <;> simp [pySet, h, fieldsWeight] <;> omega

theorem fieldsWeight_pyPop_eq (d : Record) (k : String) (v : Value)
    (h : pyGet d k = some v) :
    fieldsWeight d = fieldsWeight (pyPop d k) + valWeight v := by
  induction d with
  | nil => simp [pyGet] at h
  | cons p rest ih =>
      obtain ⟨k0, w⟩ := p
      by_cases h0 : k0 = k
      · simp [pyGet, h0] at h
        subst h
        simp [pyPop, h0, fieldsWeight]
        omega
      · simp [pyGet, h0] at h
        simp [pyPop, h0, fieldsWeight, ih h]
        omega

theorem mem_keys_pySet (d : Record) (k k' : String) (v : Value) :
    k' ∈ (pySet d k v).map Prod.fst ↔ k' ∈ d.map Prod.fst ∨ k' = k := by
  induction d with
  | nil => simp [pySet]
  | cons p rest ih =>
      obtain ⟨k0, w⟩ := p
      by_cases h : k0 = k
      · subst h
        simp [pySet]
        tauto
      · simp [pySet, h, ih]
        tauto

theorem keysNodup_pySet (d : Record) (k : String) (v : Value)
    (h : keysNodup d) : keysNodup (pySet d k v) := by
  induction d with
  | nil => simp [pySet, keysNodup]
  | cons p rest ih =>
      obtain ⟨k0, w⟩ := p
      unfold keysNodup at h
      rw [List.map_cons, List.nodup_cons] at h
      by_cases h0 : k0 = k
      · subst h0
        unfold keysNodup
        rw [show pySet ((k0, w) :: rest) k0 v = (k0, v) :: rest by
              simp [pySet]]
        rw [List.map_cons, List.nodup_cons]
        exact h
      · unfold keysNodup
        rw [show pySet ((k0, w) :: rest) k v = (k0, w) :: pySet rest k v by
              simp [pySet, h0]]
        rw [List.map_cons, List.nodup_cons]
        refine ⟨?_, ih h.2⟩
        rw [mem_keys_pySet]
        rintro (hm | rfl)
        · exact h.1 hm
        · exact h0 rfl

theorem mem_keys_pyPop (d : Record) (k k' : String)
    (h : k' ∈ (pyPop d k).map Prod.fst) : k' ∈ d.map Prod.fst := by
  induction d with
  | nil => simp [pyPop] at h
  | cons p rest ih =>
      obtain ⟨k0, w⟩ := p
      by_cases h0 : k0 = k
      · simp only [pyPop, if_pos h0] at h
        simp [h]
      · simp only [pyPop, if_neg h0, List.map_cons, List.mem_cons] at h ⊢
        tauto

theorem keysNodup_pyPop (d : Record) (k : String)
    (h : keysNodup d) : keysNodup (pyPop d k) := by
  induction d with
  | nil => simpa [pyPop] using h
  | cons p rest ih =>
      obtain ⟨k0, w⟩ := p
      unfold keysNodup at h ⊢
      simp only [List.map_cons, List.nodup_cons] at h
      by_cases h0 : k0 = k
      · simp only [pyPop, if_pos h0]
        exact h.2
      · simp only [pyPop, if_neg h0, List.map_cons, List.nodup_cons]
        exact ⟨fun hm => h.1 (mem_keys_pyPop rest k k0 hm), ih h.2⟩

/-- A promoted key `key ++ "__" ++ nested` is never the popped key itself. -/
theorem promotedKey_ne (k nk : String) : k ++ "__" ++ nk ≠ k := by
  intro h
  have hl := congrArg String.length h
  have h2 : ("__" : String).length = 2 := rfl
  simp only [String.length_append, h2] at hl
  omega


/-! ### Lemmas about the flatten loop -/

theorem promote_weight_le (key : String) :
    ∀ (fs : List (String × Value)) (d : Record),
      fieldsWeight (fs.foldl (fun acc p => pySet acc (key ++ "__" ++ p.1) p.2) d)
        ≤ fieldsWeight d + fieldsWeight fs
  | [], d => by simp [fieldsWeight]
  | p :: fs, d => by
      rw [List.foldl_cons]
      have h1 := promote_weight_le key fs (pySet d (key ++ "__" ++ p.1) p.2)
      have h2 := fieldsWeight_pySet_le d (key ++ "__" ++ p.1) p.2
      have h3 : fieldsWeight (p :: fs) = valWeight p.2 + fieldsWeight fs := rfl
      omega

theorem promote_pyGet_key (key : String) :
    ∀ (fs : List (String × Value)) (d : Record),
      pyGet (fs.foldl (fun acc p => pySet acc (key ++ "__" ++ p.1) p.2) d) key
        = pyGet d key
  | [], d => rfl
  | p :: fs, d => by
      rw [List.foldl_cons]
      rw [promote_pyGet_key key fs (pySet d (key ++ "__" ++ p.1) p.2)]
      exact pyGet_pySet_ne d (key ++ "__" ++ p.1) key p.2
        (fun e => promotedKey_ne key p.1 e.symm)

theorem promote_keysNodup (key : String) :
    ∀ (fs : List (String × Value)) (d : Record), keysNodup d →
      keysNodup (fs.foldl (fun acc p => pySet acc (key ++ "__" ++ p.1) p.2) d)
  | [], _, h => h
  | p :: fs, d, h => by
      rw [List.foldl_cons]
      exact promote_keysNodup key fs _ (keysNodup_pySet d _ p.2 h)

theorem flattenStep_weight_lt (d : Record) (key : String)
    (fs : List (String × Value)) (h : pyGet d key = some (.obj fs)) :
    fieldsWeight (flattenStep d key) < fieldsWeight d := by
  have hstep : flattenStep d key
      = pyPop (fs.foldl (fun acc p => pySet acc (key ++ "__" ++ p.1) p.2) d) key := by
    unfold flattenStep
    rw [h]
  set d1 := fs.foldl (fun acc p => pySet acc (key ++ "__" ++ p.1) p.2) d with hd1
  have h1 : pyGet d1 key = some (.obj fs) := by rw [hd1, promote_pyGet_key, h]
  have h2 : fieldsWeight d1 = fieldsWeight (pyPop d1 key) + valWeight (.obj fs) :=
    fieldsWeight_pyPop_eq d1 key _ h1
  have h3 : fieldsWeight d1 ≤ fieldsWeight d + fieldsWeight fs :=
    promote_weight_le key fs d
  have h4 : valWeight (.obj fs) = 1 + fieldsWeight fs := rfl
  rw [hstep]
  omega

theorem flattenStep_weight_le (d : Record) (key : String) :
    fieldsWeight (flattenStep d key) ≤ fieldsWeight d := by
  rcases h : pyGet d key with _ | v
  · unfold flattenStep
    rw [h]
  · rcases v with _ | n | es | fs
    · unfold flattenStep; rw [h]
    · unfold flattenStep; rw [h]
    · unfold flattenStep; rw [h]
    · exact le_of_lt (flattenStep_weight_lt d key fs h)

theorem flattenStep_keysNodup (d : Record) (key : String) (h : keysNodup d) :
    keysNodup (flattenStep d key) := by
  rcases hg : pyGet d key with _ | v
  · unfold flattenStep; rw [hg]; exact h
  · rcases v with _ | n | es | fs
    · unfold flattenStep; rw [hg]; exact h
    · unfold flattenStep; rw [hg]; exact h
    · unfold flattenStep; rw [hg]; exact h
    · unfold flattenStep
      rw [hg]
      exact keysNodup_pyPop _ key (promote_keysNodup key fs d h)

theorem foldl_flattenStep_weight_le :
    ∀ (keys : List String) (d : Record),
      fieldsWeight (keys.foldl flattenStep d) ≤ fieldsWeight d
  | [], _ => le_rfl
  | key :: keys, d => by
      rw [List.foldl_cons]
      exact le_trans (foldl_flattenStep_weight_le keys (flattenStep d key))
        (flattenStep_weight_le d key)

theorem foldl_flattenStep_keysNodup :
    ∀ (keys : List String) (d : Record), keysNodup d →
      keysNodup (keys.foldl flattenStep d)
  | [], _, h => h
  | key :: keys, d, h => by
      rw [List.foldl_cons]
      exact foldl_flattenStep_keysNodup keys _ (flattenStep_keysNodup d key h)

theorem foldl_flattenStep_weight_lt :
    ∀ (keys : List String) (d : Record),
      (∃ k ∈ keys, ∃ fs, pyGet d k = some (.obj fs)) →
      fieldsWeight (keys.foldl flattenStep d) < fieldsWeight d
  | [], _, h => by simp at h
  | key :: keys, d, h => by
      rw [List.foldl_cons]
      rcases hg : pyGet d key with _ | v
      · have hne : flattenStep d key = d := by unfold flattenStep; rw [hg]
        obtain ⟨k, hk, fs, hfs⟩ := h
        rcases List.mem_cons.mp hk with rfl | hk2
        · rw [hg] at hfs; cases hfs
        · rw [hne]
          exact foldl_flattenStep_weight_lt keys d ⟨k, hk2, fs, hfs⟩
      · rcases v with _ | n | es | fs0
        · have hne : flattenStep d key = d := by unfold flattenStep; rw [hg]
          obtain ⟨k, hk, fs, hfs⟩ := h
          rcases List.mem_cons.mp hk with rfl | hk2
          · rw [hg] at hfs; cases hfs
          · rw [hne]
            exact foldl_flattenStep_weight_lt keys d ⟨k, hk2, fs, hfs⟩
        · have hne : flattenStep d key = d := by unfold flattenStep; rw [hg]
          obtain ⟨k, hk, fs, hfs⟩ := h
          rcases List.mem_cons.mp hk with rfl | hk2
          · rw [hg] at hfs; cases hfs
          · rw [hne]
            exact foldl_flattenStep_weight_lt keys d ⟨k, hk2, fs, hfs⟩
        · have hne : flattenStep d key = d := by unfold flattenStep; rw [hg]
          obtain ⟨k, hk, fs, hfs⟩ := h
          rcases List.mem_cons.mp hk with rfl | hk2
          · rw [hg] at hfs; cases hfs
          · rw [hne]
            exact foldl_flattenStep_weight_lt keys d ⟨k, hk2, fs, hfs⟩
        · exact lt_of_le_of_lt (foldl_flattenStep_weight_le keys _)
            (flattenStep_weight_lt d key fs0 hg)

theorem anyDict_weight_pos :
    ∀ d : Record, anyDict d = true → 1 ≤ fieldsWeight d
  | p :: rest, h => by
      rcases hv : p.2 with _ | n | es | fs
      · have : anyDict rest = true := by
          simp only [anyDict, List.any_cons, hv] at h
          simpa [anyDict] using h
        have := anyDict_weight_pos rest this
        have he : fieldsWeight (p :: rest) = valWeight p.2 + fieldsWeight rest := rfl
        omega
      · have : anyDict rest = true := by
          simp only [anyDict, List.any_cons, hv] at h
          simpa [anyDict] using h
        have := anyDict_weight_pos rest this
        have he : fieldsWeight (p :: rest) = valWeight p.2 + fieldsWeight rest := rfl
        omega
      · have : anyDict rest = true := by
          simp only [anyDict, List.any_cons, hv] at h
          simpa [anyDict] using h
        have := anyDict_weight_pos rest this
        have he : fieldsWeight (p :: rest) = valWeight p.2 + fieldsWeight rest := rfl
        omega
      · have he : fieldsWeight (p :: rest) = valWeight p.2 + fieldsWeight rest := rfl
        have hw : valWeight p.2 = 1 + fieldsWeight fs := by
          rw [hv]
          exact rfl
        omega

theorem anyDict_exists_key :
    ∀ d : Record, keysNodup d → anyDict d = true →
      ∃ k ∈ d.map Prod.fst, ∃ fs, pyGet d k = some (.obj fs)
  | (k0, v0) :: rest, hnd, h => by
      unfold keysNodup at hnd
      rw [List.map_cons, List.nodup_cons] at hnd
      rcases hv : v0 with _ | n | es | fs
      all_goals subst hv
      case obj =>
        refine ⟨k0, by simp, fs, ?_⟩
        simp [pyGet]
      all_goals {
        have hrest : anyDict rest = true := by
          simpa [anyDict] using h
        obtain ⟨k, hk, fs1, hfs1⟩ := anyDict_exists_key rest hnd.2 hrest
        have hne : k0 ≠ k := fun e => hnd.1 (e ▸ hk)
        exact ⟨k, by simp [hk], fs1, by simp [pyGet, fun e : k0 = k => hne e, hfs1]⟩
      }

theorem flattenPass_weight_lt (d : Record) (hnd : keysNodup d)
    (h : anyDict d = true) : fieldsWeight (flattenPass d) < fieldsWeight d :=
  foldl_flattenStep_weight_lt (d.map Prod.fst) d (anyDict_exists_key d hnd h)

theorem flattenPass_keysNodup (d : Record) (h : keysNodup d) :
    keysNodup (flattenPass d) :=
  foldl_flattenStep_keysNodup (d.map Prod.fst) d h

theorem flattenLoop_of_anyDict_false (fuel : Nat) (d : Record)
    (h : anyDict d = false) : flattenLoop fuel d = d := by
  cases fuel with
  | zero => rfl
  | succ n => simp [flattenLoop, h]

theorem anyDict_flattenLoop :
    ∀ (fuel : Nat) (d : Record), keysNodup d → fieldsWeight d ≤ fuel →
      anyDict (flattenLoop fuel d) = false
  | 0, d, _, hw => by
      rcases h : anyDict d with _ | _
      · rw [show flattenLoop 0 d = d from rfl]
        exact h
      · have := anyDict_weight_pos d h
        omega
  | fuel + 1, d, hnd, hw => by
      rcases h : anyDict d with _ | _
      · rw [flattenLoop_of_anyDict_false (fuel + 1) d h]
        exact h
      · rw [show flattenLoop (fuel + 1) d = flattenLoop fuel (flattenPass d) by
              simp [flattenLoop, h]]
        have hlt := flattenPass_weight_lt d hnd h
        exact anyDict_flattenLoop fuel (flattenPass d)
          (flattenPass_keysNodup d hnd) (by omega)

theorem anyDict_flattenRecord (d : Record) (h : keysNodup d) :
    anyDict (flattenRecord d) = false :=
  anyDict_flattenLoop (fieldsWeight d) d h le_rfl

theorem flattenRecord_of_anyDict_false (d : Record) (h : anyDict d = false) :
    flattenRecord d = d :=
  flattenLoop_of_anyDict_false (fieldsWeight d) d h

theorem flattenRecord_idem (d : Record) (h : keysNodup d) :
    flattenRecord (flattenRecord d) = flattenRecord d :=
  flattenRecord_of_anyDict_false _ (anyDict_flattenRecord d h)

theorem flattenRecord_ne_self (d : Record) (hnd : keysNodup d)
    (h : anyDict d = true) : flattenRecord d ≠ d := by
  intro e
  have hf := anyDict_flattenRecord d hnd
  rw [e, h] at hf
  cases hf

theorem map_eq_self_iff_forall {α : Type} (f : α → α) :
    ∀ l : List α, l.map f = l ↔ ∀ x ∈ l, f x = x
  | [] => by simp
  | a :: l => by
      simp only [List.map_cons, List.cons.injEq, List.mem_cons]
      rw [map_eq_self_iff_forall f l]
      constructor
      · rintro ⟨h1, h2⟩ x (rfl | hx)
        · exact h1
        · exact h2 x hx
      · intro h
        exact ⟨h a (Or.inl rfl), fun x hx => h x (Or.inr hx)⟩


/-! ### Generic list helpers -/

theorem mapM_option_eq_some {α β : Type} (f : α → Option β) (g : α → β) :
    ∀ l : List α, (∀ a ∈ l, f a = some (g a)) → l.mapM f = some (l.map g)
  | [], _ => rfl
  | a :: l, h => by
      rw [List.mapM_cons]
      rw [h a (by simp), mapM_option_eq_some f g l (fun x hx => h x (by simp [hx]))]
      rfl

theorem range_map_getD {α β : Type} (f : α → β) (dflt : α) :
    ∀ l : List α, (List.range l.length).map (fun i => f (l.getD i dflt)) = l.map f
  | [] => rfl
  | a :: l => by
      rw [List.length_cons, List.range_succ_eq_map, List.map_cons, List.map_map]
      have hfn : ((fun i => f ((a :: l).getD i dflt)) ∘ Nat.succ)
          = fun i => f (l.getD i dflt) := funext fun i => rfl
      rw [hfn, range_map_getD f dflt l, List.map_cons]
      rfl

theorem get?_eq_some_getD {α : Type} (d : α) :
    ∀ (l : List α) (i : Nat), i < l.length → l.get? i = some (l.getD i d)
  | a :: l, 0, _ => rfl
  | a :: l, i + 1, h => by
      simp only [List.get?_cons_succ, List.getD_cons_succ]
      exact get?_eq_some_getD d l i (by simpa using h)

/-! ### Lemmas about the FBO paginator loop -/

theorem range_map_offset_succ (n offset : Nat) :
    offset :: (List.range n).map (fun i => offset + 1000 + i * 1000)
      = (List.range (n + 1)).map (fun i => offset + i * 1000) := by
  rw [List.range_succ_eq_map, List.map_cons, List.map_map]
  have hfn : ((fun i => offset + i * 1000) ∘ Nat.succ)
      = fun i => offset + 1000 + i * 1000 := funext fun i => by
    show offset + (i + 1) * 1000 = offset + 1000 + i * 1000
    ring
  rw [hfn]
  simp

theorem fboFetch_full_then_short (lastPage : List Nat)
    (hlast : lastPage.length < 1000) :
    ∀ (fullPages : List (List Nat)), (∀ p ∈ fullPages, p.length = 1000) →
      ∀ (acc : List Nat) (offset : Nat) (offs : List Nat),
      fboFetch acc offset offs
          ((fullPages ++ [lastPage]).map (fun p => ⟨200, .result p⟩))
        = .ok (acc ++ fullPages.flatten ++ lastPage)
            (offs ++ (List.range (fullPages.length + 1)).map
              (fun i => offset + i * 1000))
  | [], _, acc, offset, offs => by
      simp only [List.nil_append, List.map_cons, List.map_nil]
      rw [show fboFetch acc offset offs [⟨200, .result lastPage⟩]
            = .ok (acc ++ lastPage) (offs ++ [offset]) by
          simp [fboFetch, hlast]]
      simp [show List.range 1 = [0] from rfl]
  | p :: fullPages, hfull, acc, offset, offs => by
      have hp : p.length = 1000 := hfull p (by simp)
      have hstep : fboFetch acc offset offs
            (((p :: fullPages) ++ [lastPage]).map (fun q => ⟨200, .result q⟩))
          = fboFetch (acc ++ p) (offset + 1000) (offs ++ [offset])
              ((fullPages ++ [lastPage]).map (fun q => ⟨200, .result q⟩)) := by
        simp [fboFetch, hp]
      rw [hstep, fboFetch_full_then_short lastPage hlast fullPages
            (fun q hq => hfull q (by simp [hq])) (acc ++ p) (offset + 1000)
            (offs ++ [offset])]
      simp only [List.length_cons, List.flatten_cons]
      congr 1
      · simp [List.append_assoc]
      · rw [List.append_assoc]
        congr 1
        rw [List.singleton_append]
        exact range_map_offset_succ (fullPages.length + 1) offset

/-! ### Lemmas about the finance paginator loop -/

theorem finFetchLoop_pageCount_zero (s : Nat) (ops : List Nat) :
    ∀ (fuel k page : Nat) (acc : List Nat), page ≠ 0 →
      finFetchLoop (fun _ => ⟨s, .result ops 0⟩) fuel k page acc = none
  | 0, _, _, _, _ => rfl
  | fuel + 1, k, page, acc, hpage => by
      rw [show finFetchLoop (fun _ => ⟨s, .result ops 0⟩) (fuel + 1) k page acc
            = finFetchLoop (fun _ => ⟨s, .result ops 0⟩) fuel (k + 1) (page + 1)
                (acc ++ ops) by
          simp [finFetchLoop, hpage]]
      exact finFetchLoop_pageCount_zero s ops fuel (k + 1) (page + 1) (acc ++ ops)
        (by omega)

/-- The stream whose first response reports `page_count = 2` and every
later response reports `page_count = 1` (below the by-then incremented
page counter). -/
def finStaleStream (ops : List Nat) : Nat → FinResponse :=
  fun k => if k = 0 then ⟨200, .result ops 2⟩ else ⟨200, .result ops 1⟩

theorem finFetchLoop_stale (ops : List Nat) :
    ∀ (fuel k page : Nat) (acc : List Nat), 1 ≤ k → 2 ≤ page →
      finFetchLoop (finStaleStream ops) fuel k page acc = none
  | 0, _, _, _, _, _ => rfl
  | fuel + 1, k, page, acc, hk, hpage => by
      have hbody : (finStaleStream ops k).body = .result ops 1 := by
        simp [finStaleStream, show k ≠ 0 by omega]
      rw [show finFetchLoop (finStaleStream ops) (fuel + 1) k page acc
            = finFetchLoop (finStaleStream ops) fuel (k + 1) (page + 1)
                (acc ++ ops) by
          simp [finFetchLoop, hbody, show page ≠ 1 by omega]]
      exact finFetchLoop_stale ops fuel (k + 1) (page + 1) (acc ++ ops)
        (by omega) (by omega)

theorem finFetchLoop_const_terminates (s : Nat) (ops : List Nat) (pc : Nat) :
    ∀ (n fuel k page : Nat) (acc : List Nat), page + n = pc → n < fuel →
      finFetchLoop (fun _ => ⟨s, .result ops pc⟩) fuel k page acc
        = some (.ok (acc ++ (List.replicate (n + 1) ops).flatten) (k + n + 1))
  | 0, fuel, k, page, acc, hpc, hfuel => by
      obtain ⟨f, rfl⟩ : ∃ f, fuel = f + 1 := ⟨fuel - 1, by omega⟩
      have hpage : page = pc := by omega
      simp [finFetchLoop, hpage]
  | n + 1, fuel, k, page, acc, hpc, hfuel => by
      obtain ⟨f, rfl⟩ : ∃ f, fuel = f + 1 := ⟨fuel - 1, by omega⟩
      rw [show finFetchLoop (fun _ => ⟨s, .result ops pc⟩) (f + 1) k page acc
            = finFetchLoop (fun _ => ⟨s, .result ops pc⟩) f (k + 1) (page + 1)
                (acc ++ ops) by
          simp [finFetchLoop, show page ≠ pc by omega]]
      rw [finFetchLoop_const_terminates s ops pc n f (k + 1) (page + 1) (acc ++ ops)
            (by omega) (by omega)]
      rw [show List.replicate (n + 1 + 1) ops = ops :: List.replicate (n + 1) ops
            from rfl]
      simp [List.append_assoc]
      omega

/-! ### Orchestrator lemmas -/

theorem manage_result_ne_taskFailure :
    ∀ (tasks : List TaskOutcome) (msg : String),
      (manage_asyncio_wait tasks).result ≠ some (.taskFailure msg)
  | [], msg => by simp [manage_asyncio_wait]
  | .success :: rest, msg => by
      rw [show manage_asyncio_wait (.success :: rest) = manage_asyncio_wait rest
            from rfl]
      exact manage_result_ne_taskFailure rest msg
  | .failure m :: rest, msg => by
      rcases rest with _ | ⟨t, rest⟩
      · simp [manage_asyncio_wait]
      · simp [manage_asyncio_wait]

theorem manage_all_success :
    ∀ tasks : List TaskOutcome, (∀ t ∈ tasks, t = .success) →
      manage_asyncio_wait tasks = ⟨none, 0⟩
  | [], _ => rfl
  | .success :: rest, h => by
      rw [show manage_asyncio_wait (.success :: rest) = manage_asyncio_wait rest
            from rfl]
      exact manage_all_success rest (fun t ht => h t (by simp [ht]))
  | .failure m :: rest, h => by
      exact absurd (h (.failure m) (by simp)) (by simp)

theorem fboRunAux_cons_ok (script : List FboResponse)
    (rest : List (List FboResponse)) (acc : List Nat) (d o : List Nat)
    (h : fboFetch [] 0 [] script = .ok d o) :
    fboRunAux (script :: rest) acc = fboRunAux rest (acc ++ d) := by
  simp only [fboRunAux]
  rw [h]

theorem fboRunAux_cons_err (script : List FboResponse)
    (rest : List (List FboResponse)) (acc : List Nat) (e : FetchErr)
    (d o : List Nat) (h : fboFetch [] 0 [] script = .err e d o) :
    fboRunAux (script :: rest) acc
      = some ⟨acc ++ d, some e,
              if rest.isEmpty then none else some .cancelledError⟩ := by
  unfold fboRunAux
  rw [h]

/-! ### Claim theorems -/

/-- Claim C1, counterexample: a run whose only task fails makes
`manage_asyncio_wait` return normally (`result = none`), and a run with a
failing first task and a pending sibling propagates a `CancelledError`,
not the captured failure — so the orchestrator does not surface the first
failure to its caller, contradicting the claim. -/
theorem C1_counterexample :
    manage_asyncio_wait [TaskOutcome.failure "boom"] = ⟨none, 0⟩ ∧
    manage_asyncio_wait [TaskOutcome.failure "boom", TaskOutcome.success]
      = ⟨some PyException.cancelledError, 1⟩ := by
  exact ⟨by decide, by decide⟩

/-- Claim C1 (amended): `manage_asyncio_wait` never raises the captured
task failure to its caller — its result is never `taskFailure`; when every
task succeeds it returns normally having cancelled nothing; and when a
task fails with siblings still pending it cancels all of them and what
escapes is a `CancelledError`, not the failure. The failure itself is
only logged. -/
theorem C1_orchestrator_swallows_failure :
    (∀ (tasks : List TaskOutcome) (msg : String),
        (manage_asyncio_wait tasks).result ≠ some (PyException.taskFailure msg)) ∧
    (∀ tasks : List TaskOutcome, (∀ t ∈ tasks, t = TaskOutcome.success) →
        manage_asyncio_wait tasks = ⟨none, 0⟩) ∧
    (∀ (msg : String) (t : TaskOutcome) (rest : List TaskOutcome),
        manage_asyncio_wait (TaskOutcome.failure msg :: t :: rest)
          = ⟨some PyException.cancelledError, rest.length + 1⟩) :=
  ⟨manage_result_ne_taskFailure, manage_all_success, fun msg t rest => by
    simp [manage_asyncio_wait]⟩

/-- Witness for C1: the amended theorem applied to a concrete all-success
run and to a concrete failing run. -/
theorem C1_witness :
    (∀ t ∈ [TaskOutcome.success, TaskOutcome.success], t = TaskOutcome.success) ∧
    manage_asyncio_wait [TaskOutcome.success, TaskOutcome.success] = ⟨none, 0⟩ ∧
    (manage_asyncio_wait [TaskOutcome.failure "boom"]).result
      ≠ some (PyException.taskFailure "boom") :=
  ⟨by decide, C1_orchestrator_swallows_failure.2.1 _ (by decide),
   C1_orchestrator_swallows_failure.1 [TaskOutcome.failure "boom"] "boom"⟩

/-- Claim C2, counterexample: a response with HTTP status 500 whose JSON
body has no `"message"` key is processed as a normal page — the loop does
not abort and no error is raised, contradicting "a non-200-equivalent
status aborts the loop immediately and raises". -/
theorem C2_counterexample :
    fboFetch [] 0 [] [⟨500, .result [7]⟩] = .ok [7] [0] ∧ (500 : Nat) ≠ 200 :=
  ⟨rfl, by decide⟩

/-- Claim C2 (amended): the loop aborts exactly on a response carrying an
error payload (a truthy `"message"` key), raising an exception that
carries the HTTP status code and the provider's message but not the api
method; a response without the error payload — whatever its status — is
processed as a normal page. -/
theorem C2_error_payload_aborts (acc offs : List Nat) (offset s : Nat)
    (m : String) (rest : List FboResponse) :
    fboFetch acc offset offs (⟨s, .message m⟩ :: rest)
        = .err ⟨s, m⟩ acc (offs ++ [offset]) ∧
    (∀ items : List Nat, items.length < 1000 →
        fboFetch acc offset offs (⟨s, .result items⟩ :: rest)
          = .ok (acc ++ items) (offs ++ [offset])) := by
  refine ⟨rfl, fun items h => ?_⟩
  simp [fboFetch, h]

/-- Witness for C2: the amended theorem applied to a concrete error
payload and to a concrete status-500 page. -/
theorem C2_amended_witness :
    fboFetch [] 0 [] [⟨500, .message "err"⟩] = .err ⟨500, "err"⟩ [] [0] ∧
    fboFetch [] 0 [] [⟨500, .result [9]⟩] = .ok [9] [0] :=
  ⟨(C2_error_payload_aborts [] [] 0 500 "err" []).1,
   (C2_error_payload_aborts [] [] 0 500 "err" []).2 [9] (by decide)⟩

/-- Claim C3, counterexample: window task 1 succeeds with 3 items, window
task 2 accumulates a full page of 1000 items and then fails. The run
completes with no exception reaching the caller (`callerException =
none`), the failure merely logged, and `self.data` holds all 1003 items
accumulated before the failure — nothing is discarded, contradicting
"the run reports the first failure and the caller obtains no usable
aggregate". -/
theorem C3_counterexample :
    fboRun [[⟨200, .result [1, 2, 3]⟩],
            [⟨200, .result (List.replicate 1000 7)⟩, ⟨500, .message "boom"⟩]]
      = some ⟨[1, 2, 3] ++ List.replicate 1000 7, some ⟨500, "boom"⟩, none⟩ ∧
    ([1, 2, 3] ++ List.replicate 1000 7).length = 1003 := by
  constructor
  · have ht2 : fboFetch [] 0 []
          [⟨200, FboBody.result (List.replicate 1000 7)⟩,
           ⟨500, FboBody.message "boom"⟩]
        = .err ⟨500, "boom"⟩ (List.replicate 1000 7) [0, 1000] := by
      rw [show fboFetch [] 0 []
            [⟨200, FboBody.result (List.replicate 1000 7)⟩,
             ⟨500, FboBody.message "boom"⟩]
          = if (List.replicate 1000 7).length < 1000
            then FetchOutcome.ok ([] ++ List.replicate 1000 7) ([] ++ [0])
            else fboFetch ([] ++ List.replicate 1000 7) (0 + 1000) ([] ++ [0])
                [⟨500, FboBody.message "boom"⟩] from rfl]
      rw [List.length_replicate]
      rw [if_neg (by norm_num)]
      rfl
    rw [show fboRun [[⟨200, FboBody.result [1, 2, 3]⟩],
            [⟨200, FboBody.result (List.replicate 1000 7)⟩,
             ⟨500, FboBody.message "boom"⟩]]
          = fboRunAux [[⟨200, FboBody.result [1, 2, 3]⟩],
              [⟨200, FboBody.result (List.replicate 1000 7)⟩,
               ⟨500, FboBody.message "boom"⟩]] [] from rfl]
    rw [fboRunAux_cons_ok [⟨200, FboBody.result [1, 2, 3]⟩]
          [[⟨200, FboBody.result (List.replicate 1000 7)⟩,
            ⟨500, FboBody.message "boom"⟩]] [] [1, 2, 3] [0] rfl]
    rw [fboRunAux_cons_err _ _ _ _ _ _ ht2]
    rfl
  · rw [List.length_append, List.length_replicate]
    rfl

/-- Claim C3 (amended): when a window task fails after a sibling task
succeeded, the shared `self.data` retains both the sibling's items and
the pages the failing task appended before raising; the failure is only
recorded in the log, and when no task is left pending the run finishes
without any exception reaching the caller — the caller obtains the
partial aggregate. -/
theorem C3_partial_data_retained (script1 script2 : List FboResponse)
    (d1 o1 : List Nat) (e : FetchErr) (d2 o2 : List Nat)
    (h1 : fboFetch [] 0 [] script1 = .ok d1 o1)
    (h2 : fboFetch [] 0 [] script2 = .err e d2 o2) :
    fboRun [script1, script2] = some ⟨d1 ++ d2, some e, none⟩ := by
  simp [fboRun, fboRunAux, h1, h2]

/-- Witness for C3: the amended theorem applied to concrete scripts. -/
theorem C3_amended_witness :
    fboRun [[⟨200, .result [1, 2, 3]⟩], [⟨500, .message "boom"⟩]]
      = some ⟨[1, 2, 3], some ⟨500, "boom"⟩, none⟩ := by
  have h := C3_partial_data_retained
      [FboResponse.mk 200 (FboBody.result [1, 2, 3])]
      [FboResponse.mk 500 (FboBody.message "boom")]
      [1, 2, 3] [0] ⟨500, "boom"⟩ [] [0] rfl rfl
  simpa using h

/-- Claim C4, counterexample: with the maximum span `M = 365` days,
(i) the range of 12 hours (`since < to`) is rejected (`ZeroDivisionError`),
not only the degenerate `since == to`; (ii) for a range of 365 days and
12 hours, `dates_delta` returns `count = 1` although `ceil(D / M) = 2`,
and the returned step is the whole range, which exceeds `M`. -/
theorem C4_counterexample :
    dates_delta 0 43200000000000 = none ∧ (0 : Nat) < 43200000000000 ∧
    dates_delta 0 31579200000000000 = some (1, 31579200000000000) ∧
    ceilDivNat 31579200000000000 (365 * nsPerDay) = 2 ∧
    365 * nsPerDay < 31579200000000000 := by
  exact ⟨by decide, by decide, by decide, by decide, by decide⟩

/-- Claim C4 (amended): `dates_delta` first truncates the duration to
whole days, so `count = ceil(days(D) / 365)` where `days(D) = ⌊D / day⌋`;
the call succeeds exactly when `D ≥ 1` day (every shorter strictly
positive range is rejected with `ZeroDivisionError`, not just
`since == to`); on success `count ≥ 1` and `step = D / count`, which is
at most 365 days when `D` is a whole number of days and in general only
less than 366 days. -/
theorem C4_dates_delta_floor_days (time_since time_to : Nat)
    (_hle : time_since ≤ time_to) :
    (time_to - time_since < nsPerDay → dates_delta time_since time_to = none) ∧
    (nsPerDay ≤ time_to - time_since →
      ∃ years step,
        dates_delta time_since time_to = some (years, step) ∧
        years = ceilDivNat ((time_to - time_since) / nsPerDay) 365 ∧
        1 ≤ years ∧ step = (time_to - time_since) / years ∧
        ((time_to - time_since) % nsPerDay = 0 → step ≤ 365 * nsPerDay) ∧
        step < 366 * nsPerDay) := by
  constructor
  · intro hlt
    have hdays : (time_to - time_since) / nsPerDay = 0 := Nat.div_eq_of_lt hlt
    simp [dates_delta, hdays, ceilDivNat]
  · intro hge
    set D := time_to - time_since with hD
    have hnsp : 0 < nsPerDay := by decide
    have hdays1 : 1 ≤ D / nsPerDay := (Nat.one_le_div_iff hnsp).mpr hge
    set days := D / nsPerDay with hdays
    set years := ceilDivNat days 365 with hyears
    have hy1 : 1 ≤ years := by
      rw [hyears, ceilDivNat]
      omega
    have hyne : ¬ years = 0 := by omega
    have hbound : days ≤ 365 * years := by
      rw [hyears, ceilDivNat]
      have hdm := Nat.div_add_mod (days + 364) 365
      have hml : (days + 364) % 365 < 365 := Nat.mod_lt _ (by omega)
      omega
    refine ⟨years, D / years, ?_, rfl, hy1, rfl, ?_, ?_⟩
    · simp only [dates_delta]
      rw [← hD, ← hdays, ← hyears, if_neg hyne]
    · intro hmod
      have h0 : nsPerDay * days + D % nsPerDay = D := by
        have h0 := Nat.div_add_mod D nsPerDay
        rw [← hdays] at h0
        exact h0
      have hDdays : D = nsPerDay * days := by omega
      have hle2 : D ≤ 365 * nsPerDay * years := by
        rw [hDdays]
        calc nsPerDay * days ≤ nsPerDay * (365 * years) :=
              Nat.mul_le_mul_left _ hbound
          _ = 365 * nsPerDay * years := by ring
      calc D / years ≤ 365 * nsPerDay * years / years :=
            Nat.div_le_div_right hle2
        _ = 365 * nsPerDay := Nat.mul_div_cancel _ (by omega)
    · have h0 : nsPerDay * days + D % nsPerDay = D := by
        have h0 := Nat.div_add_mod D nsPerDay
        rw [← hdays] at h0
        exact h0
      have hm : D % nsPerDay < nsPerDay := Nat.mod_lt D hnsp
      have hDlt : D < nsPerDay * (days + 1) := by
        calc D = nsPerDay * days + D % nsPerDay := h0.symm
          _ < nsPerDay * days + nsPerDay := Nat.add_lt_add_left hm _
          _ = nsPerDay * (days + 1) := by ring
      have hlt2 : D < 366 * nsPerDay * years := by
        calc D < nsPerDay * (days + 1) := hDlt
          _ ≤ nsPerDay * (365 * years + 1) := Nat.mul_le_mul_left _ (by omega)
          _ ≤ nsPerDay * (366 * years) := Nat.mul_le_mul_left _ (by omega)
          _ = 366 * nsPerDay * years := by ring
      exact (Nat.div_lt_iff_lt_mul (by omega)).mpr hlt2

/-- Witness for C4: the amended theorem applied to the 365½-day range. -/
theorem C4_amended_witness :
    (0 : Nat) ≤ 31579200000000000 ∧ nsPerDay ≤ 31579200000000000 - 0 ∧
    dates_delta 0 31579200000000000 = some (1, 31579200000000000) := by
  have h := (C4_dates_delta_floor_days 0 31579200000000000 (by decide)).2
    (by decide)
  obtain ⟨years, step, heq, hyears, _, hstep, _, _⟩ := h
  refine ⟨by decide, by decide, ?_⟩
  rw [heq, hstep, hyears]
  decide

/-- Claim C5: on every strictly positive range on which `dates_delta`
succeeds, the returned pair satisfies `count * step == to - since` up to
duration rounding: `count * step ≤ D < count * step + count`, i.e. the
subdivision is exact to within one nanosecond per window. -/
theorem C5_equal_subdivision (time_since time_to count step : Nat)
    (_hlt : time_since < time_to)
    (h : dates_delta time_since time_to = some (count, step)) :
    count * step ≤ time_to - time_since ∧
    time_to - time_since < count * step + count := by
  set D := time_to - time_since with hD
  simp only [dates_delta] at h
  rw [← hD] at h
  by_cases hy : ceilDivNat (D / nsPerDay) 365 = 0
  · rw [if_pos hy] at h
    cases h
  · rw [if_neg hy] at h
    rw [Option.some.injEq, Prod.mk.injEq] at h
    obtain ⟨rfl, rfl⟩ := h
    have hc : 0 < ceilDivNat (D / nsPerDay) 365 := Nat.pos_of_ne_zero hy
    set y := ceilDivNat (D / nsPerDay) 365 with hys
    have hdm := Nat.div_add_mod D y
    have hml : D % y < y := Nat.mod_lt _ hc
    constructor
    · calc y * (D / y) ≤ y * (D / y) + D % y := Nat.le_add_right _ _
        _ = D := hdm
    · calc D = y * (D / y) + D % y := hdm.symm
        _ < y * (D / y) + y := Nat.add_lt_add_left hml _

/-- Witness for C5: two exact years split into two 365-day windows. -/
theorem C5_witness :
    (0 : Nat) < 63072000000000000 ∧
    dates_delta 0 63072000000000000 = some (2, 31536000000000000) ∧
    2 * 31536000000000000 ≤ 63072000000000000 - 0 ∧
    63072000000000000 - 0 < 2 * 31536000000000000 + 2 :=
  ⟨by decide, by decide,
   (C5_equal_subdivision 0 63072000000000000 2 31536000000000000
      (by decide) (by decide)).1,
   (C5_equal_subdivision 0 63072000000000000 2 31536000000000000
      (by decide) (by decide)).2⟩

/-- Claim C6: the count-based paginator keeps looping while pages have
exactly 1000 items and stops at the first shorter page; it accumulates
the concatenation of all pages and the `offset` of the `i`-th request is
`i * 1000` regardless of the returned counts. In particular pages of
sizes 1000, 1000, 437 give exactly 3 requests and 2437 items (see the
witness). -/
theorem C6_count_paginator (fullPages : List (List Nat)) (lastPage : List Nat)
    (hfull : ∀ p ∈ fullPages, p.length = 1000) (hlast : lastPage.length < 1000) :
    fboFetch [] 0 [] ((fullPages ++ [lastPage]).map (fun p => ⟨200, .result p⟩))
      = .ok (fullPages.flatten ++ lastPage)
          ((List.range (fullPages.length + 1)).map (fun i => i * 1000)) := by
  have h := fboFetch_full_then_short lastPage hlast fullPages hfull [] 0 []
  simpa using h

/-- Witness for C6: pages of sizes 1000, 1000, 437 → exactly 3 requests at
offsets 0, 1000, 2000 and 2437 accumulated items. -/
theorem C6_witness :
    fboFetch [] 0 []
        (([List.replicate 1000 0, List.replicate 1000 0]
            ++ [List.replicate 437 0]).map (fun p => ⟨200, .result p⟩))
      = .ok ([List.replicate 1000 0, List.replicate 1000 0].flatten
              ++ List.replicate 437 0) [0, 1000, 2000] ∧
    ([List.replicate 1000 0, List.replicate 1000 0].flatten
        ++ List.replicate 437 0).length = 2437 ∧
    [0, 1000, 2000].length = 3 := by
  refine ⟨?_, ?_, rfl⟩
  · have h := C6_count_paginator [List.replicate 1000 0, List.replicate 1000 0]
        (List.replicate 437 0)
        (by
          intro p hp
          simp only [List.mem_cons, List.not_mem_nil, or_false, or_self] at hp
          subst hp
          rw [List.length_replicate])
        (by rw [List.length_replicate]; norm_num)
    rw [h]
    congr 1
  · rw [List.flatten_cons, List.flatten_cons, List.flatten_nil, List.append_nil,
        List.length_append, List.length_append, List.length_replicate,
        List.length_replicate]

/-- Claim C7: `flatten_dict` is idempotent — after one application no
record of the output has a dict-valued field, so a second application
returns the same list. (The records are assumed to satisfy the CPython
dict invariant of unique keys.) -/
theorem C7_flatten_idempotent (l : List Record) (h : ∀ r ∈ l, keysNodup r) :
    flatten_dict (flatten_dict l) = flatten_dict l ∧
    ∀ r ∈ flatten_dict l, anyDict r = false := by
  have hno : ∀ r ∈ flatten_dict l, anyDict r = false := by
    intro r hr
    rw [flatten_dict] at hr
    obtain ⟨r0, hr0, rfl⟩ := List.mem_map.mp hr
    exact anyDict_flattenRecord r0 (h r0 hr0)
  refine ⟨?_, hno⟩
  rw [show flatten_dict (flatten_dict l) = (flatten_dict l).map flattenRecord
        from rfl]
  rw [map_eq_self_iff_forall]
  intro r hr
  exact flattenRecord_of_anyDict_false r (hno r hr)

/-- Witness for C7: a concrete two-level record. -/
theorem C7_witness :
    (∀ r ∈ [[("a", Value.obj [("b", Value.prim 1)])]], keysNodup r) ∧
    flatten_dict (flatten_dict [[("a", Value.obj [("b", Value.prim 1)])]])
      = flatten_dict [[("a", Value.obj [("b", Value.prim 1)])]] ∧
    ∀ r ∈ flatten_dict [[("a", Value.obj [("b", Value.prim 1)])]],
      anyDict r = false := by
  have h := C7_flatten_idempotent [[("a", Value.obj [("b", Value.prim 1)])]]
    (by decide)
  exact ⟨by decide, h.1, h.2⟩

/-- Claim C8, counterexample: `flatten_dict` is not pure — it takes only a
shallow copy of the input list and mutates the record dicts in place, so
after the call the caller's record `{"a": {"b": 1}}` has become
`{"a__b": 1}`. -/
theorem C8_counterexample :
    flatten_dict_inputAfter [[("a", Value.obj [("b", Value.prim 1)])]]
        ≠ [[("a", Value.obj [("b", Value.prim 1)])]] ∧
    flatten_dict_inputAfter [[("a", Value.obj [("b", Value.prim 1)])]]
        = [[("a__b", Value.prim 1)]] := by
  exact ⟨by decide, by decide⟩

/-- Claim C8 (amended): `mult_data` is pure (deep copies; the input list
and its records are untouched), but `flatten_dict` mutates the input
records in place: the returned list is exactly the list of mutated input
records, and the input survives unmodified precisely when no record has a
dict-valued field (so there was nothing to flatten). -/
theorem C8_purity_amended (l : List Record) (c : String)
    (h : ∀ r ∈ l, keysNodup r) :
    mult_data_inputAfter l c = l ∧
    flatten_dict_inputAfter l = flatten_dict l ∧
    (flatten_dict_inputAfter l = l ↔ ∀ r ∈ l, anyDict r = false) := by
  refine ⟨rfl, rfl, ?_⟩
  rw [show flatten_dict_inputAfter l = l.map flattenRecord from rfl]
  rw [map_eq_self_iff_forall]
  constructor
  · intro hall r hr
    cases hx : anyDict r
    · rfl
    · exact absurd (hall r hr) (flattenRecord_ne_self r (h r hr) hx)
  · intro hall r hr
    exact flattenRecord_of_anyDict_false r (hall r hr)

/-- Witness for C8: the amended theorem applied to a concrete nested
record (which `flatten_dict` does mutate). -/
theorem C8_amended_witness :
    mult_data_inputAfter [[("a", Value.obj [("b", Value.prim 1)])]] "p"
        = [[("a", Value.obj [("b", Value.prim 1)])]] ∧
    ¬ (flatten_dict_inputAfter [[("a", Value.obj [("b", Value.prim 1)])]]
        = [[("a", Value.obj [("b", Value.prim 1)])]]) := by
  have h := C8_purity_amended [[("a", Value.obj [("b", Value.prim 1)])]] "p"
    (by decide)
  refine ⟨h.1, ?_⟩
  rw [h.2.2]
  decide

/-- Claim C9, counterexample: for a record with `a = [1]` and
`b = [2, 3]`, exploding on columns `(a, b)` produces one record per
element of the FIRST column `a` (one record), not one per element of the
longer sequence `b` (two records), and nulls `b` even though `b` is the
longer one. -/
theorem C9_counterexample :
    mult_data2 [[("a", Value.arr [Value.prim 1]),
                 ("b", Value.arr [Value.prim 2, Value.prim 3])]] "a" "b"
      = some [[("a", Value.prim 1), ("b", Value.null)]] ∧
    [[("a", Value.prim 1), ("b", Value.null)]].length ≠ 2 := by
  exact ⟨by decide, by decide⟩

/-- Claim C9 (amended): when the two sequence-valued columns differ in
length, `mult_data2` produces one output record per element of the FIRST
named column (whether or not it is the longer one), with the first column
set to the index-aligned element and the second column set to `None` in
every output record. -/
theorem C9_mult_data2_first_column (note : Record) (c1 c2 : String)
    (v1 v2 : List Value) (h1 : pyGet note c1 = some (.arr v1))
    (h2 : pyGet note c2 = some (.arr v2)) (hne : v1.length ≠ v2.length)
    (hcc : c1 ≠ c2) :
    mult_data2 [note] c1 c2
      = some (v1.map (fun e => pySet (pySet note c2 Value.null) c1 e)) := by
  have hr1 : pyGet (pySet note c2 Value.null) c1 = some (Value.arr v1) := by
    rw [pyGet_pySet_ne note c2 c1 Value.null hcc, h1]
  have hstep : ∀ i ∈ List.range v1.length,
      multData2Diff note c1 c2 i
        = some (pySet (pySet note c2 Value.null) c1 (v1.getD i Value.null)) := by
    intro i hi
    rw [List.mem_range] at hi
    simp only [multData2Diff, hr1, pyIndex, Option.pure_def, Option.bind_eq_bind,
      Option.some_bind, get?_eq_some_getD Value.null v1 i hi]
  have hmapM : (List.range v1.length).mapM (multData2Diff note c1 c2)
      = some ((List.range v1.length).map
          (fun i => pySet (pySet note c2 Value.null) c1 (v1.getD i Value.null))) :=
    mapM_option_eq_some _ _ _ hstep
  have hmap := range_map_getD
    (fun e => pySet (pySet note c2 Value.null) c1 e) Value.null v1
  simp only [mult_data2, List.mapM_cons, List.mapM_nil, h1, h2]
  rw [if_pos hne, hmapM]
  simp only [Option.pure_def, Option.bind_eq_bind, Option.some_bind, Option.map_some]
  rw [hmap]
  simp

/-- Witness for C9: the amended theorem applied with the longer column
first. -/
theorem C9_amended_witness :
    mult_data2 [[("a", Value.arr [Value.prim 1]),
                 ("b", Value.arr [Value.prim 2, Value.prim 3])]] "b" "a"
      = some [[("a", Value.null), ("b", Value.prim 2)],
              [("a", Value.null), ("b", Value.prim 3)]] := by
  have h := C9_mult_data2_first_column
      [("a", Value.arr [Value.prim 1]),
       ("b", Value.arr [Value.prim 2, Value.prim 3])]
      "b" "a" [Value.prim 2, Value.prim 3] [Value.prim 1]
      (by decide) (by decide) (by decide) (by decide)
  exact h.trans (by decide)

/-- Claim C10: termination of the page-count paginator requires the
reported `page_count` to be a value the incrementing page counter reaches
exactly. A constant `page_count = 0` (an empty result set) makes the loop
run forever (no amount of fuel finishes it); a `page_count` that drops
below the already-incremented counter (here 2 then 1) also loops forever;
while a constant `page_count = pc ≥ 1` terminates after exactly `pc`
requests. -/
theorem C10_page_count_termination :
    (∀ (ops : List Nat) (fuel : Nat),
        finFetch (fun _ => ⟨200, .result ops 0⟩) fuel = none) ∧
    (∀ (ops : List Nat) (fuel : Nat), finFetch (finStaleStream ops) fuel = none) ∧
    (∀ (ops : List Nat) (pc fuel : Nat), 1 ≤ pc → pc ≤ fuel →
        finFetch (fun _ => ⟨200, .result ops pc⟩) fuel
          = some (.ok (List.replicate pc ops).flatten pc)) := by
  refine ⟨?_, ?_, ?_⟩
  · intro ops fuel
    exact finFetchLoop_pageCount_zero 200 ops fuel 0 1 [] (by omega)
  · intro ops fuel
    cases fuel with
    | zero => rfl
    | succ f =>
        rw [show finFetch (finStaleStream ops) (f + 1)
              = finFetchLoop (finStaleStream ops) f 1 2 ([] ++ ops) by
            simp [finFetch, finFetchLoop, finStaleStream]]
        exact finFetchLoop_stale ops f 1 2 ([] ++ ops) (by omega) (by omega)
  · intro ops pc fuel hpc hfuel
    have h := finFetchLoop_const_terminates 200 ops pc (pc - 1) fuel 0 1 []
      (by omega) (by omega)
    have hk : 0 + (pc - 1) + 1 = pc := by omega
    have hn : pc - 1 + 1 = pc := by omega
    rw [hk, hn] at h
    simp only [List.nil_append] at h
    exact h

/-- Witness for C10: `page_count = 4` terminates after exactly 4 requests;
`page_count = 0` never terminates within 10 requests of fuel. -/
theorem C10_witness :
    (1 : Nat) ≤ 4 ∧ (4 : Nat) ≤ 10 ∧
    finFetch (fun _ => ⟨200, .result [5] 4⟩) 10
      = some (.ok (List.replicate 4 [5]).flatten 4) ∧
    finFetch (fun _ => ⟨200, FinBody.result [5] 0⟩) 10 = none :=
  ⟨by decide, by decide,
   C10_page_count_termination.2.2 [5] 4 10 (by decide) (by decide),
   C10_page_count_termination.1 [5] 10⟩

end Ozon
